import Mathlib

/-!
Verification of the feedbot repository's core logic against its design
specification.  The Go source is embedded shallowly: absolute times are
integers counting nanoseconds since the epoch (Go `time.Time` resolution),
`Unix()` truncates to seconds via floor division, database tables are Lean
lists, and fallible operations return explicit result types.
-/

namespace Feedbot

/-- Nanoseconds per second; Go `time.Time` carries nanosecond resolution. -/
def nsPerSec : Int := 1000000000

/-- Go's `Time.Unix()`: whole seconds since the epoch of a nanosecond
instant, rounding toward negative infinity (Go stores seconds plus a
nonnegative nanosecond remainder). -/
def unixSec (t : Int) : Int := Int.fdiv t nsPerSec

/-- Convenience: a whole-second instant expressed in nanoseconds. -/
def secNs (s : Int) : Int := s * nsPerSec

/-- A fetched feed entry (`gofeed.Item`): an identifying payload and the
optional parsed publish time (`PublishedParsed`, nil when absent). -/
structure Item where
  uid : Nat
  published : Option Int
deriving DecidableEq

/-- The publish instant of an item, defaulting to 0; only consulted under a
hypothesis that the timestamp is present. -/
def pubNs (i : Item) : Int := i.published.getD 0

/-- A feed row (`Feed` in controller.go): id, uri, and the stored
`last_updated` watermark (nanoseconds). -/
structure Feed where
  id : Nat
  uri : List Char
  lastUpdated : Int
deriving DecidableEq

/-- Result of `gofeed.Parser.ParseURL` for one feed: a fetch/parse failure
or the ordered item list. -/
inductive FetchResult where
  | failure
  | success (items : List Item)
deriving DecidableEq

/-- The outcome of one iteration of `checkOnce`'s feeds loop for one feed. -/
inductive FeedOutcome where
  | fetchError
  | skippedEmpty
  | missingTimestamp
  | skippedNotNewer
  | handled (newItems : List Item) (newWatermark : Int)
deriving DecidableEq

/-- The inner collection loop of `checkOnce` (feed.go lines 74–85): walk the
items from the front; a nil `PublishedParsed` aborts the whole feed
(`continue feedsLoop`, modelled as `none`); an item whose Unix-second
timestamp is at most `minTime` stops the scan; every earlier item is
collected. -/
def collectNew (minTime : Int) : List Item → Option (List Item)
  | [] => some []
  | i :: rest =>
    match i.published with
    | none => none
    | some t =>
      if minTime ≥ unixSec t then some []
      else
        match collectNew minTime rest with
        | none => none
        | some more => some (i :: more)

/-- One iteration of `checkOnce`'s loop (feed.go lines 45–93) for a feed
whose stored watermark is `lastUpdated`: a parse error is recorded and the
feed skipped; an empty item list is skipped silently; a front item without
a timestamp is a missing-timestamp error; a front item not newer than the
watermark (compared at Unix-second granularity) skips the feed; otherwise
the collection loop runs and, on success, the new items are handled and the
watermark is set to the front item's full-resolution publish time. -/
def processFeed (lastUpdated : Int) (fetched : FetchResult) : FeedOutcome :=
  match fetched with
  | .failure => .fetchError
  | .success items =>
    match items with
    | [] => .skippedEmpty
    | recent :: _ =>
      match recent.published with
      | none => .missingTimestamp
      | some recentTs =>
        if unixSec lastUpdated ≥ unixSec recentTs then .skippedNotNewer
        else
          match collectNew (unixSec lastUpdated) items with
          | none => .missingTimestamp
          | some its => .handled its recentTs

/-- Items handled (printed / dispatched) for a feed this cycle. -/
def FeedOutcome.newItems : FeedOutcome → List Item
  | .handled its _ => its
  | _ => []

/-- The watermark stored after the iteration: `UpdateFeedTimestamp` writes
the front item's publish time only on the handled path; every other path
leaves the stored value alone. -/
def FeedOutcome.watermark (old : Int) : FeedOutcome → Int
  | .handled _ w => w
  | _ => old

/-- Number of errors appended to `errs` by this iteration. -/
def FeedOutcome.errCount : FeedOutcome → Nat
  | .fetchError => 1
  | .missingTimestamp => 1
  | _ => 0

/-- One feed together with its outcome in a cycle. -/
structure CycleEntry where
  feed : Feed
  outcome : FeedOutcome
deriving DecidableEq

/-- `checkOnce` (feed.go): loop over every stored feed, fetch it, and
process it independently; no state other than the error list crosses
iterations. -/
def checkOnce (fetch : List Char → FetchResult) : List Feed → List CycleEntry
  | [] => []
  | f :: rest =>
    ⟨f, processFeed f.lastUpdated (fetch f.uri)⟩ :: checkOnce fetch rest

/-- Total number of errors returned by the cycle. -/
def cycleErrs (es : List CycleEntry) : Nat :=
  (es.map (fun e => e.outcome.errCount)).sum

/-- The feed store after the cycle: each feed's watermark updated by its
own outcome. -/
def newStore (es : List CycleEntry) : List Feed :=
  es.map (fun e => { e.feed with lastUpdated := e.outcome.watermark e.feed.lastUpdated })

/-- Items handled per feed id during the cycle. -/
def cycleHandled (es : List CycleEntry) : List (Nat × List Item) :=
  es.map (fun e => (e.feed.id, e.outcome.newItems))

/-- Go `sql.NullBool` as carried by the override columns: NULL (`unset`)
means "inherit the guild default"; otherwise a concrete boolean. -/
inductive NullBool where
  | unset
  | given (b : Bool)
deriving DecidableEq

/-- A guild's configuration row (`guild_config` table / `GuildConfig`
struct): id, contact, and the two default policy booleans. -/
structure GuildConfig where
  id : List Char
  contact : List Char
  embeds : Bool
  webhooks : Bool
deriving DecidableEq

/-- A subscription row (`subscriptions` table / `Subscription` struct,
value fields only). -/
structure Subscription where
  id : Nat
  guildID : List Char
  channelID : List Char
  feedID : Nat
deriving DecidableEq

/-- A subscription override row (`subscription_overrides` table /
`Overwrite` struct): the two policy columns are nullable. -/
structure Overwrite where
  id : Nat
  subID : Nat
  embeds : NullBool
  webhooks : NullBool
deriving DecidableEq

/-- Result of a controller mutation: success with a value, or
`sql.ErrNoRows` / zero rows affected (NotFound). -/
inductive DbResult (α : Type) where
  | ok (val : α)
  | notFound
deriving DecidableEq

/-- `Controller.ModifyGuildEmbeds`: `UPDATE guild_config SET enable_embeds
= ? WHERE id = ?`, then NotFound when zero rows were affected. -/
def ModifyGuildEmbeds (store : List GuildConfig) (guildID : List Char) (flag : Bool) :
    DbResult (List GuildConfig) :=
  if store.any (fun g => g.id = guildID) then
    .ok (store.map (fun g => if g.id = guildID then { g with embeds := flag } else g))
  else .notFound

/-- `Controller.ModifyGuildWebhooks` as written in controller.go: its SQL
statement is `UPDATE guild_config SET enable_embeds = ? WHERE id = ?` — it
updates the `enable_embeds` column, not `enable_webhooks` — then NotFound
when zero rows were affected. -/
def ModifyGuildWebhooks (store : List GuildConfig) (guildID : List Char) (flag : Bool) :
    DbResult (List GuildConfig) :=
  if store.any (fun g => g.id = guildID) then
    .ok (store.map (fun g => if g.id = guildID then { g with embeds := flag } else g))
  else .notFound

/-- The whole database state, one field per table. -/
structure DB where
  feeds : List Feed
  guilds : List GuildConfig
  subs : List Subscription
  overrides : List Overwrite
deriving DecidableEq

/-- `Controller.DestroyGuildData` as written in controller.go: the body is
a `// TODO` comment and performs no database operation at all. -/
def DestroyGuildData (db : DB) (_guildID : List Char) : DB := db

/-- Result of `Controller.AddSubscription`: the existing subscription with
`ErrSubExists`, the created subscription, or a row-scan failure. -/
inductive AddSubResult where
  | already (s : Subscription)
  | created (s : Subscription)
  | dbError
deriving DecidableEq

/-- Subscription/override store with the next auto-assigned rowids. -/
structure SubStore where
  subs : List Subscription
  overrides : List Overwrite
  nextSubID : Nat
  nextOvID : Nat
deriving DecidableEq

/-- The `INSERT INTO subscription_overrides (sub_id) SELECT id FROM
subscriptions WHERE ...` statement: one all-NULL override row per selected
subscription id, with consecutive auto-assigned rowids. -/
def insertOverrides : Nat → List Nat → List Overwrite
  | _, [] => []
  | nid, sid :: rest => ⟨nid, sid, .unset, .unset⟩ :: insertOverrides (nid + 1) rest

/-- The first row returned by a `SELECT ... WHERE` scan, in table order. -/
def firstMatch (p : Subscription → Bool) : List Subscription → Option Subscription
  | [] => none
  | s :: rest => if p s then some s else firstMatch p rest

/-- `Controller.AddSubscription` (controller.go lines 177–233): first query
for an existing row with the same `(feed_id, channel_id)`; if one exists,
return it (only id, channel and feed populated) with `ErrSubExists` and
change nothing.  Otherwise insert the subscription, insert one all-NULL
override per subscription matching the pair, re-select the subscription id
and return the created subscription. -/
def AddSubscription (st : SubStore) (channelID guildID : List Char) (feedID : Nat) :
    AddSubResult × SubStore :=
  match firstMatch (fun s => s.feedID = feedID && s.channelID = channelID) st.subs with
  | some s => (.already ⟨s.id, [], channelID, feedID⟩, st)
  | none =>
    let newSub : Subscription := ⟨st.nextSubID, guildID, channelID, feedID⟩
    let subs' := st.subs ++ [newSub]
    let matched := subs'.filter (fun s => s.channelID = channelID && s.feedID = feedID)
    let newOvs := insertOverrides st.nextOvID (matched.map (fun s => s.id))
    let st' : SubStore :=
      ⟨subs', st.overrides ++ newOvs, st.nextSubID + 1, st.nextOvID + newOvs.length⟩
    match firstMatch (fun s => s.channelID = channelID && s.feedID = feedID) subs' with
    | some m => (.created ⟨m.id, guildID, channelID, feedID⟩, st')
    | none => (.dbError, st')

/-- Modelled from the spec: the Policy Resolver of §4.4 has no
implementation in the repository source — the delivery path that would
consume the override columns returned by `Controller.GetSubscriptions` is
still a TODO in feed.go — so the resolution rule is taken from the spec's
words: each effective field is the override value if set, else the guild
default; pure, no failure modes. -/
def resolvePolicy (guildEmbeds guildWebhooks : Bool) (ovEmbeds ovWebhooks : NullBool) :
    Bool × Bool :=
  (match ovEmbeds with | .unset => guildEmbeds | .given b => b,
   match ovWebhooks with | .unset => guildWebhooks | .given b => b)

/-- Go string slicing `s[n:]`: defined when `n ≤ len(s)`, a runtime panic
otherwise (modelled as `none`). -/
def goDrop (s : List Char) (n : Nat) : Option (List Char) :=
  if n ≤ s.length then some (s.drop n) else none

/-- `strings.Split(s, " ")` specialised to the single-space separator:
splits into the (possibly empty) substrings between spaces. -/
def splitSpace : List Char → List (List Char)
  | [] => [[]]
  | c :: rest =>
    match splitSpace rest with
    | h :: t => if c = ' ' then [] :: h :: t else (c :: h) :: t
    | [] => if c = ' ' then [[], []] else [[c]]

/-- The literal command marker `"/feed:"`. -/
def slashTag : List Char := "/feed:".data

/-- The names registered in the command mux. -/
def cmdNames : List (List Char) :=
  ["help".data, "add".data, "remove".data, "list".data, "set".data]

/-- What one delivery of a MESSAGE_CREATE event amounts to. -/
inductive MsgOutcome where
  | ignored
  | panicked
  | dispatched (cmd : List Char) (args : List (List Char))
deriving DecidableEq

/-- The tail of `Bot.onMessageCreate` after the prefix handling: split the
command text on spaces, look the first part up in the mux, and dispatch
with the remaining parts as arguments. -/
def dispatchContent (content : List Char) : MsgOutcome :=
  match splitSpace content with
  | [] => .ignored
  | cmd :: rest =>
    if cmd ∈ cmdNames then .dispatched cmd rest else .ignored

/-- `Bot.onMessageCreate` (commands.go lines 51–95): bot authors are
ignored; then a fresh local `content` string is declared (zero value, the
empty string — the code never copies `m.Content` into it) and, when the
message content starts with the mention marker or with `"/feed:"`, the code
slices that empty local by the marker's length; Go slicing past the end of
a string panics. -/
def onMessageCreate (mentionTag : List Char) (authorBot : Bool) (mContent : List Char) :
    MsgOutcome :=
  if authorBot then .ignored
  else
    let content : List Char := []
    if mentionTag.isPrefixOf mContent then
      match goDrop content mentionTag.length with
      | none => .panicked
      | some c => dispatchContent c
    else if slashTag.isPrefixOf mContent then
      match goDrop content slashTag.length with
      | none => .panicked
      | some c => dispatchContent c
    else .ignored

/-- A demonstration feed store with three feeds, all at watermark 1000 s. -/
def storeDemo : List Feed :=
  [⟨1, "a".data, secNs 1000⟩, ⟨2, "b".data, secNs 1000⟩, ⟨3, "c".data, secNs 1000⟩]

/-- A demonstration fetch in which only the second feed fails. -/
def fetchDemo (u : List Char) : FetchResult :=
  if u = "a".data then .success [⟨11, some (secNs 1030)⟩]
  else if u = "b".data then .failure
  else .success [⟨31, some (secNs 2030)⟩]

/-- The specification-side diff predicate: an item counts as new when its
publish time, truncated to Unix seconds, strictly exceeds the truncated
watermark. -/
def isNewer (w : Int) (i : Item) : Bool := decide (unixSec w < unixSec (pubNs i))

/-! ## Helper lemmas about the collection loop -/

theorem collectNew_allSome (m : Int) (items : List Item)
    (h : ∀ i ∈ items, i.published.isSome) :
    collectNew m items
      = some (items.takeWhile (fun i => decide (m < unixSec (pubNs i)))) := by
  induction items with
  | nil => rfl
  | cons a rest ih =>
    obtain ⟨t, ht⟩ := Option.isSome_iff_exists.mp (h a (List.mem_cons_self a rest))
    have hrest : ∀ i ∈ rest, i.published.isSome :=
      fun i hi => h i (List.mem_cons_of_mem a hi)
    by_cases hc : m ≥ unixSec t
    · simp [collectNew, ht, hc, List.takeWhile, pubNs, not_lt.mpr hc]
    · simp [collectNew, ht, hc, ih hrest, List.takeWhile, pubNs, lt_of_not_ge hc]

theorem collectNew_sound (m : Int) (items res : List Item)
    (h : collectNew m items = some res) :
    ∀ i ∈ res, ∃ u, i.published = some u ∧ m < unixSec u := by
  induction items generalizing res with
  | nil =>
    simp only [collectNew, Option.some.injEq] at h
    subst h; simp
  | cons a rest ih =>
    cases ha : a.published with
    | none => simp [collectNew, ha] at h
    | some t =>
      by_cases hc : m ≥ unixSec t
      · simp only [collectNew, ha, if_pos hc, Option.some.injEq] at h
        subst h; simp
      · cases hr : collectNew m rest with
        | none => simp [collectNew, ha, hc, hr] at h
        | some more =>
          simp only [collectNew, ha, if_neg hc, hr, Option.some.injEq] at h
          subst h
          intro i hi
          rcases List.mem_cons.mp hi with rfl | hmem
          · exact ⟨t, ha, lt_of_not_ge hc⟩
          · exact ih more hr i hmem

theorem collectNew_hits_missing (m : Int) (p : List Item) (i : Item) (s : List Item)
    (hp : ∀ j ∈ p, ∃ t, j.published = some t ∧ m < unixSec t)
    (hi : i.published = none) :
    collectNew m (p ++ i :: s) = none := by
  induction p with
  | nil => simp [collectNew, hi]
  | cons a p' ih =>
    obtain ⟨t, ht, hlt⟩ := hp a (List.mem_cons_self a p')
    have hp' : ∀ j ∈ p', ∃ t, j.published = some t ∧ m < unixSec t :=
      fun j hj => hp j (List.mem_cons_of_mem a hj)
    simp [collectNew, ht, not_le.mpr hlt, ih hp']

theorem processFeed_newItems_sound (w : Int) (fr : FetchResult) :
    ∀ i ∈ (processFeed w fr).newItems,
      ∃ u, i.published = some u ∧ unixSec w < unixSec u := by
  cases fr with
  | failure => simp [processFeed, FeedOutcome.newItems]
  | success items =>
    cases items with
    | nil => simp [processFeed, FeedOutcome.newItems]
    | cons recent rest =>
      cases hr : recent.published with
      | none => simp [processFeed, hr, FeedOutcome.newItems]
      | some t =>
        by_cases hc : unixSec w ≥ unixSec t
        · simp [processFeed, hr, hc, FeedOutcome.newItems]
        · cases hcol : collectNew (unixSec w) (recent :: rest) with
          | none => simp [processFeed, hr, hc, hcol, FeedOutcome.newItems]
          | some res =>
            simp only [processFeed, hr, if_neg hc, hcol, FeedOutcome.newItems]
            exact collectNew_sound _ _ _ hcol

/-! ## Helper lemmas about the subscription store -/

theorem firstMatch_skips (p : Subscription → Bool) (l l2 : List Subscription)
    (h : ∀ s ∈ l, p s = false) :
    firstMatch p (l ++ l2) = firstMatch p l2 := by
  induction l with
  | nil => rfl
  | cons a rest ih =>
    have := h a (List.mem_cons_self a rest)
    simp [firstMatch, this, ih fun s hs => h s (List.mem_cons_of_mem a hs)]

theorem firstMatch_mem (p : Subscription → Bool) (l : List Subscription)
    (s : Subscription) (h : firstMatch p l = some s) : s ∈ l ∧ p s = true := by
  induction l with
  | nil => simp [firstMatch] at h
  | cons a rest ih =>
    by_cases ha : p a
    · simp only [firstMatch, if_pos ha, Option.some.injEq] at h
      subst h; exact ⟨List.mem_cons_self a rest, ha⟩
    · simp only [firstMatch, if_neg ha] at h
      obtain ⟨hm, hp⟩ := ih h
      exact ⟨List.mem_cons_of_mem a hm, hp⟩

theorem firstMatch_none (p : Subscription → Bool) (l : List Subscription)
    (h : ∀ s ∈ l, p s = false) : firstMatch p l = none := by
  induction l with
  | nil => rfl
  | cons a rest ih =>
    have := h a (List.mem_cons_self a rest)
    simp [firstMatch, this, ih fun s hs => h s (List.mem_cons_of_mem a hs)]

theorem firstMatch_of_exists (p : Subscription → Bool) (l : List Subscription)
    (h : ∃ s ∈ l, p s = true) : ∃ s, firstMatch p l = some s := by
  induction l with
  | nil => simp at h
  | cons a rest ih =>
    by_cases ha : p a
    · exact ⟨a, by simp [firstMatch, ha]⟩
    · obtain ⟨s, hs, hp⟩ := h
      rcases List.mem_cons.mp hs with rfl | hm
      · exact absurd hp ha
      · obtain ⟨s', hs'⟩ := ih ⟨s, hm, hp⟩
        exact ⟨s', by simp [firstMatch, ha, hs']⟩

theorem filter_skips (p : Subscription → Bool) (l l2 : List Subscription)
    (h : ∀ s ∈ l, p s = false) :
    (l ++ l2).filter p = l2.filter p := by
  induction l with
  | nil => rfl
  | cons a rest ih =>
    have := h a (List.mem_cons_self a rest)
    simp [List.filter, this, ih fun s hs => h s (List.mem_cons_of_mem a hs)]

/-! ## Claims -/

/-- Claim C1: for every stored watermark and every fully timestamped fetched
sequence (most-recent-first), the diff collects exactly the items scanned
from the front whose timestamp is strictly greater than the watermark,
stopping at the first item whose timestamp is at or below it — i.e. the
handled items are the `takeWhile` strictly-newer prefix of the fetch. -/
theorem processFeed_diff_scan (w : Int) (items : List Item)
    (h : ∀ i ∈ items, i.published.isSome) :
    (processFeed w (.success items)).newItems = items.takeWhile (isNewer w) := by
  cases items with
  | nil => rfl
  | cons recent rest =>
    obtain ⟨t, ht⟩ := Option.isSome_iff_exists.mp (h recent (List.mem_cons_self recent rest))
    by_cases hc : unixSec w ≥ unixSec t
    · have hpred : isNewer w recent = false := by
        simp [isNewer, pubNs, ht, not_lt.mpr hc]
      simp [processFeed, ht, hc, FeedOutcome.newItems, List.takeWhile, hpred]
    · have hcol := collectNew_allSome (unixSec w) (recent :: rest) h
      simp only [processFeed, ht, if_neg hc, hcol, FeedOutcome.newItems]
      rfl

/-- Witness for C1 at the spec's example: watermark `t0 = 1000 s`, items at
`t0+30`, `t0+20`, `t0-10`; the new items are the first two and the watermark
written is `t0+30`. -/
theorem processFeed_diff_scan_spot :
    (∀ i ∈ [Item.mk 1 (some (secNs 1030)), Item.mk 2 (some (secNs 1020)),
            Item.mk 3 (some (secNs 990))], i.published.isSome)
    ∧ (processFeed (secNs 1000)
        (.success [Item.mk 1 (some (secNs 1030)), Item.mk 2 (some (secNs 1020)),
                   Item.mk 3 (some (secNs 990))])).newItems
        = [Item.mk 1 (some (secNs 1030)), Item.mk 2 (some (secNs 1020))]
    ∧ (processFeed (secNs 1000)
        (.success [Item.mk 1 (some (secNs 1030)), Item.mk 2 (some (secNs 1020)),
                   Item.mk 3 (some (secNs 990))])).watermark (secNs 1000)
        = secNs 1030 :=
  ⟨by decide,
   (processFeed_diff_scan (secNs 1000)
      [Item.mk 1 (some (secNs 1030)), Item.mk 2 (some (secNs 1020)),
       Item.mk 3 (some (secNs 990))] (by decide)).trans (by decide),
   by decide⟩

/-- Counterexample to C2 as stated: a successful cycle whose front item's
timestamp (990 s) differs from the stored watermark (1000 s) yields zero
new items and records no error, yet the watermark is NOT advanced — the
code skips the feed entirely whenever the front timestamp is at or below
the stored watermark. -/
theorem processFeed_stale_top_not_advanced :
    (Item.mk 1 (some (secNs 990))).published.isSome
    ∧ (Item.mk 1 (some (secNs 990))).published ≠ some (secNs 1000)
    ∧ (processFeed (secNs 1000) (.success [Item.mk 1 (some (secNs 990))])).errCount = 0
    ∧ (processFeed (secNs 1000) (.success [Item.mk 1 (some (secNs 990))])).newItems = []
    ∧ (processFeed (secNs 1000)
        (.success [Item.mk 1 (some (secNs 990))])).watermark (secNs 1000)
        = secNs 1000 := by
  decide

/-- Claim C2 (amended): for a non-empty, fully timestamped fetch, the
watermark written is the front item's full-resolution timestamp — not the
maximum of the collected subset — but it is written only when the front
item's Unix-second timestamp strictly exceeds the stored watermark's; when
the front timestamp is at or below the watermark the feed is skipped with
no error, no new items, and an unchanged watermark. -/
theorem processFeed_watermark_front (w : Int) (i : Item) (t : Int) (rest : List Item)
    (hts : i.published = some t) (hall : ∀ j ∈ rest, j.published.isSome) :
    (unixSec w < unixSec t →
      (processFeed w (.success (i :: rest))).watermark w = t)
    ∧ (unixSec t ≤ unixSec w →
      processFeed w (.success (i :: rest)) = .skippedNotNewer
      ∧ (processFeed w (.success (i :: rest))).watermark w = w
      ∧ (processFeed w (.success (i :: rest))).newItems = []
      ∧ (processFeed w (.success (i :: rest))).errCount = 0) := by
  constructor
  · intro hlt
    have hc : ¬ unixSec w ≥ unixSec t := not_le.mpr hlt
    have hsome : ∀ j ∈ i :: rest, j.published.isSome := by
      intro j hj
      rcases List.mem_cons.mp hj with rfl | hm
      · simp [hts]
      · exact hall j hm
    have hcol := collectNew_allSome (unixSec w) (i :: rest) hsome
    simp [processFeed, hts, hc, hcol, FeedOutcome.watermark]
  · intro hle
    have heq : processFeed w (.success (i :: rest)) = .skippedNotNewer := by
      simp [processFeed, hts, hle]
    refine ⟨heq, ?_, ?_, ?_⟩ <;> rw [heq] <;> rfl

/-- Witness for the amended C2: watermark 1000 s, front item at 1010 s,
second item at 1030 s (an out-of-order feed).  The watermark written is the
front's 1010 s even though the collected subset contains the larger 1030 s;
and a front item at 990 s leaves the watermark untouched. -/
theorem processFeed_watermark_front_spot :
    (processFeed (secNs 1000)
      (.success [Item.mk 1 (some (secNs 1010)), Item.mk 2 (some (secNs 1030))])).watermark
        (secNs 1000) = secNs 1010
    ∧ (processFeed (secNs 1000)
        (.success [Item.mk 1 (some (secNs 1010)),
                   Item.mk 2 (some (secNs 1030))])).newItems
        = [Item.mk 1 (some (secNs 1010)), Item.mk 2 (some (secNs 1030))]
    ∧ secNs 1010 < secNs 1030
    ∧ (processFeed (secNs 1000)
        (.success [Item.mk 3 (some (secNs 990))])).watermark (secNs 1000)
        = secNs 1000 :=
  ⟨(processFeed_watermark_front (secNs 1000) (Item.mk 1 (some (secNs 1010)))
      (secNs 1010) [Item.mk 2 (some (secNs 1030))] rfl (by decide)).1 (by decide),
   by decide, by decide,
   ((processFeed_watermark_front (secNs 1000) (Item.mk 3 (some (secNs 990)))
      (secNs 990) [] rfl (by decide)).2 (by decide)).2.1⟩

/-- Counterexample to C3 as stated: the fetched list contains an item with
no publish timestamp (in third position, behind an item already at or below
the watermark), yet the feed is NOT failed: the scan breaks before reaching
the untimestamped item, one new item is handled, no error is recorded and
the watermark is advanced. -/
theorem processFeed_missing_after_cutoff_ignored :
    Item.mk 3 none
      ∈ [Item.mk 1 (some (secNs 1030)), Item.mk 2 (some (secNs 990)), Item.mk 3 none]
    ∧ (Item.mk 3 none).published = none
    ∧ processFeed (secNs 1000)
        (.success [Item.mk 1 (some (secNs 1030)), Item.mk 2 (some (secNs 990)),
                   Item.mk 3 none])
        = .handled [Item.mk 1 (some (secNs 1030))] (secNs 1030)
    ∧ (processFeed (secNs 1000)
        (.success [Item.mk 1 (some (secNs 1030)), Item.mk 2 (some (secNs 990)),
                   Item.mk 3 none])).errCount = 0
    ∧ (processFeed (secNs 1000)
        (.success [Item.mk 1 (some (secNs 1030)), Item.mk 2 (some (secNs 990)),
                   Item.mk 3 none])).watermark (secNs 1000) = secNs 1030 := by
  decide

/-- Claim C3 (amended): an item with no publish timestamp causes a
missing-timestamp failure — watermark unchanged, zero items handled, one
error recorded — exactly when it is reached by the scan, i.e. when every
item before it in the list is timestamped strictly newer than the
watermark (at Unix-second granularity); untimestamped items positioned
after the scan's stopping point are never examined. -/
theorem processFeed_missing_timestamp_scanned (w : Int) (p : List Item) (i : Item)
    (s : List Item)
    (hp : ∀ j ∈ p, ∃ t, j.published = some t ∧ unixSec w < unixSec t)
    (hi : i.published = none) :
    processFeed w (.success (p ++ i :: s)) = .missingTimestamp
    ∧ (processFeed w (.success (p ++ i :: s))).watermark w = w
    ∧ (processFeed w (.success (p ++ i :: s))).newItems = []
    ∧ (processFeed w (.success (p ++ i :: s))).errCount = 1 := by
  have heq : processFeed w (.success (p ++ i :: s)) = .missingTimestamp := by
    cases p with
    | nil => simp [processFeed, hi]
    | cons a p' =>
      obtain ⟨t, ht, hlt⟩ := hp a (List.mem_cons_self a p')
      have hp' : ∀ j ∈ p', ∃ t, j.published = some t ∧ unixSec w < unixSec t :=
        fun j hj => hp j (List.mem_cons_of_mem a hj)
      have hcol : collectNew (unixSec w) ((a :: p') ++ i :: s) = none := by
        have := collectNew_hits_missing (unixSec w) p' i s hp' hi
        simp [collectNew, ht, not_le.mpr hlt, this]
      simp only [List.cons_append] at hcol ⊢
      simp [processFeed, ht, not_le.mpr hlt, hcol]
  refine ⟨heq, ?_, ?_, ?_⟩ <;> rw [heq] <;> rfl

/-- Witness for the amended C3: watermark 1000 s, a first item at 1030 s
followed by an untimestamped item — the feed fails with a
missing-timestamp error, the watermark stays put and nothing is handled. -/
theorem processFeed_missing_timestamp_spot :
    processFeed (secNs 1000)
      (.success ([Item.mk 1 (some (secNs 1030))] ++ Item.mk 2 none :: []))
      = .missingTimestamp
    ∧ (processFeed (secNs 1000)
        (.success ([Item.mk 1 (some (secNs 1030))] ++ Item.mk 2 none :: []))).watermark
        (secNs 1000) = secNs 1000 :=
  ⟨(processFeed_missing_timestamp_scanned (secNs 1000) [Item.mk 1 (some (secNs 1030))]
      (Item.mk 2 none) []
      (by intro j hj; simp at hj; subst hj; exact ⟨secNs 1030, rfl, by decide⟩)
      rfl).1,
   (processFeed_missing_timestamp_scanned (secNs 1000) [Item.mk 1 (some (secNs 1030))]
      (Item.mk 2 none) []
      (by intro j hj; simp at hj; subst hj; exact ⟨secNs 1030, rfl, by decide⟩)
      rfl).2.1⟩

/-- Claim C4: `Controller.ModifyGuildWebhooks` evaluated at a present guild
whose fields are all false: its SQL writes the `enable_embeds` column, so
the result has embeds true and webhooks still false — not the webhooks
field the operation is named for; on a missing guild it is NotFound. -/
theorem ModifyGuildWebhooks_writes_embeds :
    ModifyGuildWebhooks [⟨"g1".data, "own".data, false, false⟩] "g1".data true
      = .ok [⟨"g1".data, "own".data, true, false⟩]
    ∧ ModifyGuildWebhooks [⟨"g1".data, "own".data, false, false⟩] "g1".data true
        ≠ .ok [⟨"g1".data, "own".data, false, true⟩]
    ∧ ModifyGuildWebhooks [⟨"g1".data, "own".data, false, false⟩] "g2".data true
      = .notFound := by
  decide

/-- Claim C5: `Controller.DestroyGuildData` evaluated on a database holding
a guild config, a subscription, its override and a feed for that guild: the
function body is an unimplemented TODO, so the database comes back
unchanged and every row associated with the guild remains. -/
theorem DestroyGuildData_noop :
    DestroyGuildData
      ⟨[⟨1, "u".data, 0⟩], [⟨"g1".data, "own".data, false, false⟩],
       [⟨1, "g1".data, "ch".data, 1⟩], [⟨1, 1, .unset, .unset⟩]⟩ "g1".data
      = ⟨[⟨1, "u".data, 0⟩], [⟨"g1".data, "own".data, false, false⟩],
         [⟨1, "g1".data, "ch".data, 1⟩], [⟨1, 1, .unset, .unset⟩]⟩
    ∧ (DestroyGuildData
        ⟨[⟨1, "u".data, 0⟩], [⟨"g1".data, "own".data, false, false⟩],
         [⟨1, "g1".data, "ch".data, 1⟩], [⟨1, 1, .unset, .unset⟩]⟩
        "g1".data).guilds.any (fun gc => gc.id = "g1".data) = true
    ∧ (DestroyGuildData
        ⟨[⟨1, "u".data, 0⟩], [⟨"g1".data, "own".data, false, false⟩],
         [⟨1, "g1".data, "ch".data, 1⟩], [⟨1, 1, .unset, .unset⟩]⟩
        "g1".data).subs.any (fun s => s.guildID = "g1".data) = true := by
  decide

/-- Claim C6: the policy resolver returns, for each field, the override
value when set and the guild default otherwise — a pure function — and on
guild default (embeds=true, webhooks=false) with override (embeds=unset,
webhooks=true) it resolves to (true, true). -/
theorem resolvePolicy_inherits (ge gw b b2 : Bool) :
    resolvePolicy ge gw .unset .unset = (ge, gw)
    ∧ resolvePolicy ge gw (.given b) .unset = (b, gw)
    ∧ resolvePolicy ge gw .unset (.given b2) = (ge, b2)
    ∧ resolvePolicy ge gw (.given b) (.given b2) = (b, b2)
    ∧ resolvePolicy true false .unset (.given true) = (true, true) :=
  ⟨rfl, rfl, rfl, rfl, rfl⟩

/-- Claim C7: when a subscription with the same `(channelID, feedID)` pair
is already present, `AddSubscription` returns it with `ErrSubExists` and
changes nothing; when the pair is absent it appends exactly one
subscription row and exactly one companion all-unset override row. -/
theorem AddSubscription_unique (st : SubStore) (ch g : List Char) (fid : Nat) :
    ((∃ s ∈ st.subs, s.channelID = ch ∧ s.feedID = fid) →
      (AddSubscription st ch g fid).2 = st
      ∧ ∃ s ∈ st.subs, s.channelID = ch ∧ s.feedID = fid
          ∧ (AddSubscription st ch g fid).1 = .already ⟨s.id, [], ch, fid⟩)
    ∧ ((∀ s ∈ st.subs, ¬(s.channelID = ch ∧ s.feedID = fid)) →
      (AddSubscription st ch g fid).1 = .created ⟨st.nextSubID, g, ch, fid⟩
      ∧ (AddSubscription st ch g fid).2.subs = st.subs ++ [⟨st.nextSubID, g, ch, fid⟩]
      ∧ (AddSubscription st ch g fid).2.overrides
          = st.overrides ++ [⟨st.nextOvID, st.nextSubID, .unset, .unset⟩]) := by
  constructor
  · rintro ⟨s, hs, hch, hfid⟩
    have hex : ∃ x ∈ st.subs, (decide (x.feedID = fid) && decide (x.channelID = ch)) = true :=
      ⟨s, hs, by simp [hch, hfid]⟩
    obtain ⟨s₀, h₀⟩ :=
      firstMatch_of_exists (fun x => decide (x.feedID = fid) && decide (x.channelID = ch))
        st.subs hex
    obtain ⟨hmem, hp⟩ :=
      firstMatch_mem (fun x => decide (x.feedID = fid) && decide (x.channelID = ch))
        st.subs s₀ h₀
    simp only [Bool.and_eq_true, decide_eq_true_eq] at hp
    exact ⟨by simp [AddSubscription, h₀],
           s₀, hmem, hp.2, hp.1, by simp [AddSubscription, h₀]⟩
  · intro hnone
    have hmf : ∀ s ∈ st.subs,
        (decide (s.feedID = fid) && decide (s.channelID = ch)) = false := by
      intro s hs
      have := hnone s hs
      by_contra hb
      rw [Bool.not_eq_false, Bool.and_eq_true, decide_eq_true_eq, decide_eq_true_eq] at hb
      exact this ⟨hb.2, hb.1⟩
    have hml : ∀ s ∈ st.subs,
        (decide (s.channelID = ch) && decide (s.feedID = fid)) = false := by
      intro s hs
      have := hnone s hs
      by_contra hb
      rw [Bool.not_eq_false, Bool.and_eq_true, decide_eq_true_eq, decide_eq_true_eq] at hb
      exact this ⟨hb.1, hb.2⟩
    have h₁ :
        firstMatch (fun x => decide (x.feedID = fid) && decide (x.channelID = ch))
          st.subs = none := firstMatch_none _ _ hmf
    have h₂ :=
      firstMatch_skips (fun x => decide (x.channelID = ch) && decide (x.feedID = fid))
        st.subs [⟨st.nextSubID, g, ch, fid⟩] hml
    have h₃ :=
      filter_skips (fun x => decide (x.channelID = ch) && decide (x.feedID = fid))
        st.subs [⟨st.nextSubID, g, ch, fid⟩] hml
    refine ⟨?_, ?_, ?_⟩ <;>
      simp [AddSubscription, h₁, h₂, h₃, firstMatch, List.filter, insertOverrides]

/-- Witness for C7: creating a subscription in an empty store appends one
subscription row and one all-unset override row; repeating the call on the
resulting store reports `ErrSubExists`, carries the existing row's id and
leaves the store untouched. -/
theorem AddSubscription_unique_spot :
    (AddSubscription ⟨[], [], 1, 1⟩ "ch".data "g".data 5).1
      = .created ⟨1, "g".data, "ch".data, 5⟩
    ∧ (AddSubscription ⟨[], [], 1, 1⟩ "ch".data "g".data 5).2.subs
      = [⟨1, "g".data, "ch".data, 5⟩]
    ∧ (AddSubscription ⟨[], [], 1, 1⟩ "ch".data "g".data 5).2.overrides
      = [⟨1, 1, .unset, .unset⟩]
    ∧ (AddSubscription ⟨[⟨1, "g".data, "ch".data, 5⟩], [⟨1, 1, .unset, .unset⟩], 2, 2⟩
        "ch".data "g2".data 5).2
      = ⟨[⟨1, "g".data, "ch".data, 5⟩], [⟨1, 1, .unset, .unset⟩], 2, 2⟩
    ∧ (AddSubscription ⟨[⟨1, "g".data, "ch".data, 5⟩], [⟨1, 1, .unset, .unset⟩], 2, 2⟩
        "ch".data "g2".data 5).1
      = .already ⟨1, [], "ch".data, 5⟩ :=
  ⟨((AddSubscription_unique ⟨[], [], 1, 1⟩ "ch".data "g".data 5).2 (by decide)).1,
   by simpa using
     ((AddSubscription_unique ⟨[], [], 1, 1⟩ "ch".data "g".data 5).2 (by decide)).2.1,
   by simpa using
     ((AddSubscription_unique ⟨[], [], 1, 1⟩ "ch".data "g".data 5).2 (by decide)).2.2,
   ((AddSubscription_unique ⟨[⟨1, "g".data, "ch".data, 5⟩], [⟨1, 1, .unset, .unset⟩], 2, 2⟩
      "ch".data "g2".data 5).1 ⟨⟨1, "g".data, "ch".data, 5⟩, by decide, rfl, rfl⟩).1,
   by decide⟩

/-- Claim C8: one cycle processes every stored feed independently — each
feed's entry depends only on its own fetch result — completes over all
feeds, and returns the aggregate per-feed error count; in the three-feed
demonstration where only the second fetch fails, exactly one error is
returned while the first and third feeds still have their items handled
and their watermarks advanced. -/
theorem checkOnce_partial_failure_isolation (fetch : List Char → FetchResult)
    (store : List Feed) :
    checkOnce fetch store
      = store.map (fun f => ⟨f, processFeed f.lastUpdated (fetch f.uri)⟩)
    ∧ cycleErrs (checkOnce fetch store)
      = (store.map (fun f => (processFeed f.lastUpdated (fetch f.uri)).errCount)).sum
    ∧ newStore (checkOnce fetch store)
      = store.map (fun f =>
          { f with lastUpdated :=
              (processFeed f.lastUpdated (fetch f.uri)).watermark f.lastUpdated })
    ∧ cycleErrs (checkOnce fetchDemo storeDemo) = 1
    ∧ newStore (checkOnce fetchDemo storeDemo)
      = [⟨1, "a".data, secNs 1030⟩, ⟨2, "b".data, secNs 1000⟩, ⟨3, "c".data, secNs 2030⟩]
    ∧ cycleHandled (checkOnce fetchDemo storeDemo)
      = [(1, [⟨11, some (secNs 1030)⟩]), (2, []), (3, [⟨31, some (secNs 2030)⟩])] := by
  refine ⟨?_, ?_, ?_, by decide, by decide, by decide⟩
  · induction store with
    | nil => rfl
    | cons f rest ih => simp [checkOnce, ih]
  · induction store with
    | nil => rfl
    | cons f rest ih =>
      simp only [cycleErrs] at ih
      simp [checkOnce, cycleErrs, ih]
  · induction store with
    | nil => rfl
    | cons f rest ih =>
      simp only [newStore] at ih
      simp [checkOnce, newStore, ih]

/-- Claim C9: any message from a non-bot author whose content begins with
the bot's mention marker or with `"/feed:"` makes `onMessageCreate` slice
the empty local `content` string by the marker's length, which panics; no
command is ever dispatched through the message path. -/
theorem onMessageCreate_prefix_panics (mentionTag mContent : List Char)
    (hlen : 0 < mentionTag.length)
    (hpre : mentionTag.isPrefixOf mContent = true ∨ slashTag.isPrefixOf mContent = true) :
    onMessageCreate mentionTag false mContent = .panicked
    ∧ ∀ cmd args, onMessageCreate mentionTag false mContent ≠ .dispatched cmd args := by
  have hdrop : goDrop [] mentionTag.length = none := by
    simp only [goDrop, List.length_nil]
    rw [if_neg (by omega)]
  have hmain : onMessageCreate mentionTag false mContent = .panicked := by
    by_cases h1 : mentionTag.isPrefixOf mContent = true
    · simp [onMessageCreate, h1, hdrop]
    · have h2 := hpre.resolve_left h1
      have hdrop2 : goDrop [] slashTag.length = none := by decide
      simp [onMessageCreate, h1, h2, hdrop2]
  exact ⟨hmain, fun cmd args h => by rw [hmain] at h; exact MsgOutcome.noConfusion h⟩

/-- Witness for C9: with the initial mention marker `"<@0>"`, both a
mention-form and a slash-form command message hit the panic. -/
theorem onMessageCreate_prefix_panics_spot :
    0 < ("<@0>".data : List Char).length
    ∧ onMessageCreate "<@0>".data false "<@0>help".data = .panicked
    ∧ onMessageCreate "<@0>".data false "/feed:add u".data = .panicked :=
  ⟨by decide,
   (onMessageCreate_prefix_panics "<@0>".data "<@0>help".data (by decide)
      (Or.inl (by decide))).1,
   (onMessageCreate_prefix_panics "<@0>".data "/feed:add u".data (by decide)
      (Or.inr (by decide))).1⟩

/-- Claim C10: the diff compares times at Unix-second granularity: an item
whose publish instant exceeds the watermark by less than one second (equal
after truncation to seconds) is not new — at the front it causes the whole
feed to be skipped with the watermark unchanged, and in any position it is
never among the handled items. -/
theorem processFeed_subsecond_not_new (w t : Int) (n : Nat) (rest items : List Item)
    (hlt : w < t) (heq : unixSec t = unixSec w) :
    processFeed w (.success (Item.mk n (some t) :: rest)) = .skippedNotNewer
    ∧ (processFeed w (.success (Item.mk n (some t) :: rest))).watermark w = w
    ∧ (processFeed w (.success (Item.mk n (some t) :: rest))).newItems = []
    ∧ ∀ i ∈ (processFeed w (.success items)).newItems, i.published ≠ some t := by
  have hc : unixSec t ≤ unixSec w := le_of_eq heq
  have h1 : processFeed w (.success (Item.mk n (some t) :: rest)) = .skippedNotNewer := by
    simp [processFeed, hc]
  refine ⟨h1, by rw [h1]; rfl, by rw [h1]; rfl, ?_⟩
  intro i hi hpub
  obtain ⟨u, hu, hlt'⟩ := processFeed_newItems_sound w (.success items) i hi
  rw [hpub] at hu
  obtain rfl := Option.some.inj hu
  rw [heq] at hlt'
  exact lt_irrefl _ hlt'

/-- Witness for C10: watermark 1000 s, an item published half a second
later; the instant is strictly larger yet truncates to the same second, so
the feed is skipped and the watermark stays at 1000 s. -/
theorem processFeed_subsecond_not_new_spot :
    secNs 1000 < secNs 1000 + 500000000
    ∧ unixSec (secNs 1000 + 500000000) = unixSec (secNs 1000)
    ∧ processFeed (secNs 1000)
        (.success [Item.mk 7 (some (secNs 1000 + 500000000))]) = .skippedNotNewer
    ∧ (processFeed (secNs 1000)
        (.success [Item.mk 7 (some (secNs 1000 + 500000000))])).watermark (secNs 1000)
      = secNs 1000 :=
  ⟨by decide, by decide,
   (processFeed_subsecond_not_new (secNs 1000) (secNs 1000 + 500000000) 7 [] []
      (by decide) (by decide)).1,
   (processFeed_subsecond_not_new (secNs 1000) (secNs 1000 + 500000000) 7 [] []
      (by decide) (by decide)).2.1⟩

end Feedbot
